import Mathlib

/- Shallow embedding of the Freysoldt-correction core
(`pymatgen/analysis/defects/corrections.py`) and of
`Defect.get_charge_states` (`pymatgen/analysis/defect/core.py`).

Python floats are modelled as exact real numbers, numpy arrays as lists or
index functions, and fallible code paths (Python exceptions) as `Except`
values.  Helpers that live in `pymatgen.analysis.defects.utils` (QModel,
converge, eV_to_k, generate_reciprocal_vectors_squared, the unit-conversion
constants) are not part of the given sources; each of those carries a
doc comment starting with "Modelled from the spec:" and is kept exactly as
abstract as the spec describes it. -/

open scoped Real BigOperators

namespace Defects

/-- Modelled from the spec: the Å → bohr unit conversion constant
(`utils.ang_to_bohr`, not in the given sources).  No claim depends on its
numeric value. -/
noncomputable def ang_to_bohr : ℝ := 1.88973

/-- Modelled from the spec: the hartree → eV unit conversion constant
(`utils.hart_to_ev`, not in the given sources).  No claim depends on its
numeric value. -/
noncomputable def hart_to_ev : ℝ := 27.2114

/-- Python `int(x)` applied to a float: truncation toward zero. -/
noncomputable def pyInt (x : ℝ) : ℤ := if 0 ≤ x then ⌊x⌋ else ⌈x⌉

/-- Python `round(x, 6)`: round to six decimal places (exact ties, which no
claim exercises, are idealised to round-half-up). -/
noncomputable def round6 (x : ℝ) : ℝ := (round (x * 1000000) : ℤ) / 1000000

/-- Modelled from the spec: §4.1 ChargeModel.  The concrete Gaussian
formulas live in `utils.QModel`, which is not part of the given sources;
every claim uses the charge model only through this interface, so
`rho_rec` (reciprocal-space density at squared wavevector `g²`) and its
analytic `g² → 0` limit `rho_rec_limit0` are abstract fields here. -/
structure QModel where
  rho_rec : ℝ → ℝ
  rho_rec_limit0 : ℝ

/-- Modelled from the spec: §3 Lattice — three real-space basis vectors
(rows of a 3×3 matrix) with derived cell volume and a reciprocal lattice
related by a factor of 2*pi.  This is the boundary interface of the external
pymatgen `Lattice` object exactly as the spec describes it. -/
structure Lattice where
  matrix : Matrix (Fin 3) (Fin 3) ℝ

/-- Row lengths `a, b, c` of the lattice (pymatgen `Lattice.abc`). -/
noncomputable def Lattice.abc (L : Lattice) (i : Fin 3) : ℝ :=
  Real.sqrt (∑ j : Fin 3, (L.matrix i j) ^ 2)

/-- Cell volume (pymatgen `Lattice.volume`). -/
noncomputable def Lattice.volume (L : Lattice) : ℝ := |L.matrix.det|

/-- Reciprocal lattice matrix `2π·(M⁻¹)ᵀ` (pymatgen
`Lattice.reciprocal_lattice`). -/
noncomputable def Lattice.reciprocal (L : Lattice) : Matrix (Fin 3) (Fin 3) ℝ :=
  (2 * Real.pi) • (L.matrix⁻¹).transpose

/-- Row lengths of the reciprocal lattice (`reciprocal_lattice.abc`). -/
noncomputable def Lattice.reciprocalAbc (L : Lattice) (i : Fin 3) : ℝ :=
  Real.sqrt (∑ j : Fin 3, (L.reciprocal i j) ^ 2)

/-- Modelled from the spec: §4.2 ConvergenceEngine (`utils.converge`, not in
the given sources).  Evaluates `f` at additively increasing cutoffs, stops
when two consecutive values agree within `tol` or when the cutoff passes the
ceiling `max_h`, and in every case returns the last computed value of `f`.
The fuel argument only makes the recursion structural. -/
noncomputable def convergeGo (f : ℝ → ℝ) (step tol max_h : ℝ) :
    ℕ → ℝ → ℝ → ℝ
  | 0, _, prev => prev
  | fuel + 1, h, prev =>
      if max_h < h then prev
      else
        let nxt := f h
        if |nxt - prev| ≤ tol then nxt
        else convergeGo f step tol max_h fuel (h + step) nxt

/-- Modelled from the spec: §4.2 — the convergence driver, starting from the
initial cutoff `step` with additive increments of `step`, ceiling `max_h`. -/
noncomputable def converge (f : ℝ → ℝ) (step tol max_h : ℝ) : ℝ :=
  convergeGo f step tol max_h (⌈max_h / step⌉.toNat + 1) (step + step) (f step)

/-- Modelled from the spec: §4.3 — the eV-cutoff to reciprocal-radius
conversion (`utils.eV_to_k`, not in the given sources).  No claim depends on
its numeric value. -/
noncomputable def eV_to_k (energy : ℝ) : ℝ :=
  Real.sqrt (energy / 3.80986) * ang_to_bohr

/-- The reciprocal basis built from three real-space rows `a1 a2 a3`
(factor 2π), used by the reciprocal-vector generator. -/
noncomputable def recipMatrix (a1 a2 a3 : Fin 3 → ℝ) : Matrix (Fin 3) (Fin 3) ℝ :=
  (2 * Real.pi) • ((Matrix.of fun i => ![a1, a2, a3] i)⁻¹).transpose

/-- Squared norm of the reciprocal vector `n₁b₁ + n₂b₂ + n₃b₃`. -/
noncomputable def recipGsq (a1 a2 a3 : Fin 3 → ℝ) (n : ℤ × ℤ × ℤ) : ℝ :=
  ∑ j : Fin 3,
    ((n.1 : ℝ) * recipMatrix a1 a2 a3 0 j + (n.2.1 : ℝ) * recipMatrix a1 a2 a3 1 j
      + (n.2.2 : ℝ) * recipMatrix a1 a2 a3 2 j) ^ 2

/-- Bounding-box radius for coordinate `i`: `|nᵢ| = |g·aᵢ|/2π ≤ gcut·‖aᵢ‖/2π`. -/
noncomputable def recipBound (a1 a2 a3 : Fin 3 → ℝ) (encut : ℝ) (i : Fin 3) : ℤ :=
  ⌈eV_to_k encut * Real.sqrt (∑ j : Fin 3, (![a1, a2, a3] i j) ^ 2) / (2 * Real.pi)⌉

open Classical in
/-- Modelled from the spec: §4.3 ReciprocalLatticeSummation
(`utils.generate_reciprocal_vectors_squared`, not in the given sources):
every integer combination of the reciprocal basis inside the cutoff sphere,
enumerated over the minimal bounding box, excluding the zero vector. -/
noncomputable def generate_reciprocal_vectors_squared
    (a1 a2 a3 : Fin 3 → ℝ) (encut : ℝ) : Finset (ℤ × ℤ × ℤ) :=
  ((Finset.Icc (-(recipBound a1 a2 a3 encut 0)) (recipBound a1 a2 a3 encut 0)) ×ˢ
    (Finset.Icc (-(recipBound a1 a2 a3 encut 1)) (recipBound a1 a2 a3 encut 1)) ×ˢ
    (Finset.Icc (-(recipBound a1 a2 a3 encut 2)) (recipBound a1 a2 a3 encut 2))).filter
    (fun n => n ≠ (0, 0, 0) ∧ recipGsq a1 a2 a3 n ≤ (eV_to_k encut) ^ 2)

/-- The isolated-charge self-energy `e_iso` of `perform_es_corr`
(corrections.py lines 169-175); `scipy.integrate.quad` is modelled as the
exact interval integral. -/
noncomputable def e_iso (q_model : QModel) (q step : ℝ) (encut : ℝ) : ℝ :=
  (∫ g in step..(eV_to_k encut), q_model.rho_rec (g * g) ^ 2) * q ^ 2 / Real.pi

/-- The periodic-image energy `e_per` of `perform_es_corr` (corrections.py
lines 177-183), mirroring the source: the lattice sum is accumulated, scaled
by `q²·2·round(π,6)/vol`, then the `g = 0` term is added. -/
noncomputable def e_per (a1 a2 a3 : Fin 3 → ℝ) (vol : ℝ) (q_model : QModel)
    (q : ℝ) (encut : ℝ) : ℝ :=
  (∑ n in generate_reciprocal_vectors_squared a1 a2 a3 encut,
      q_model.rho_rec (recipGsq a1 a2 a3 n) ^ 2 / recipGsq a1 a2 a3 n)
      * (q ^ 2 * 2 * round6 Real.pi / vol)
    + q ^ 2 * 4 * round6 Real.pi * q_model.rho_rec_limit0 / vol

/-- Embedding of `perform_es_corr` (corrections.py lines 140-196): the rows
of the lattice matrix converted to bohr, the cell volume as a triple
product, both energies run through `converge` from an initial cutoff of 5,
and the final value `round((eiso - eper)/dielectric · hart_to_ev, 6)`. -/
noncomputable def perform_es_corr (lattice : Lattice) (q dielectric : ℝ)
    (q_model : QModel) (energy_cutoff mad_tol step : ℝ) : ℝ :=
  let a1 : Fin 3 → ℝ := fun j => ang_to_bohr * lattice.matrix 0 j
  let a2 : Fin 3 → ℝ := fun j => ang_to_bohr * lattice.matrix 1 j
  let a3 : Fin 3 → ℝ := fun j => ang_to_bohr * lattice.matrix 2 j
  let vol : ℝ := a1 0 * (a2 1 * a3 2 - a2 2 * a3 1)
    + a1 1 * (a2 2 * a3 0 - a2 0 * a3 2) + a1 2 * (a2 0 * a3 1 - a2 1 * a3 0)
  let eiso := converge (e_iso q_model q step) 5 mad_tol energy_cutoff
  let eper := converge (e_per a1 a2 a3 vol q_model q) 5 mad_tol energy_cutoff
  round6 ((eiso - eper) / dielectric * hart_to_ev)

/-- The single-period wrap applied to the defect's projected position in
`perform_pot_corr` (corrections.py lines 242-247): `axbulkval = frac·L`,
then one lattice period is added if it is negative and subtracted if it is
strictly greater than `L`. -/
noncomputable def wrapPos (axfracval L : ℝ) : ℝ :=
  let axbulkval := axfracval * L
  if axbulkval < 0 then axbulkval + L
  else if L < axbulkval then axbulkval - L
  else axbulkval

/-- The index search loop of `perform_pot_corr` (corrections.py lines
250-252): the first grid index whose coordinate strictly exceeds the wrapped
defect position; Python leaves the loop variable at `nx - 1` when no break
occurs. -/
noncomputable def findBreakIdx (v : ℝ) (grid : List ℝ) : ℕ :=
  match grid.findIdx? (fun x => decide (v < x)) with
  | some i => i
  | none => grid.length - 1

/-- Element `k` of `np.roll(xs, rollind)` (corrections.py lines 253-255):
entry `(k - rollind) mod len(xs)` of the original. -/
def rolledGet (xs : List ℝ) (rollind : ℤ) (k : ℕ) : ℝ :=
  xs.getD (((k : ℤ) - rollind) % (xs.length : ℤ)).toNat 0

/-- The profile actually used by the rest of `perform_pot_corr`: rolled by
`rollind = len(axis_grid) - i` when the wrapped defect position `axbulkval`
is truthy (nonzero), untouched when it is exactly 0 (corrections.py lines
249-255). -/
noncomputable def shiftedProfile (xs : List ℝ) (axbulkval : ℝ)
    (rollind : ℤ) : ℕ → ℝ :=
  fun k => if axbulkval = 0 then xs.getD k 0 else rolledGet xs rollind k

/-- The roll amount `rollind = len(axis_grid) - i` of `perform_pot_corr`
(corrections.py line 253), with `i` the break index of the search loop. -/
noncomputable def potRollind (axbulkval : ℝ) (axis_grid : List ℝ) : ℤ :=
  (axis_grid.length : ℤ) - findBreakIdx axbulkval axis_grid

/-- The integer frequency array `g/dg` built in `perform_pot_corr`
(corrections.py line 266): `np.roll(np.arange(-nx/2, nx/2, 1, dtype=int),
int(nx/2))`.  numpy computes the length `nx` from the float bounds but casts
the start `-nx/2` to int (truncation toward zero, i.e. `-(nx / 2)` in
natural-number division), so entry `k` of the un-rolled array is
`k - nx / 2`, and the roll by `nx / 2` gives the value below.  For even `nx`
this is the standard FFT frequency layout; for odd `nx` it is shifted by
one bin, placing the zero frequency at the last bin instead of bin 0. -/
def codeFreq (nx k : ℕ) : ℤ :=
  ((k : ℤ) - (nx : ℤ) / 2) % (nx : ℤ) - (nx : ℤ) / 2

/-- The standard DFT grid frequency of bin `k` on an `nx`-point grid (what
`np.fft.fftfreq` produces, and what the spec means by the grid frequencies):
`k` for `k < ⌈nx/2⌉` and `k - nx` beyond. -/
def fftFreq (nx k : ℕ) : ℤ :=
  if (k : ℤ) < ((nx : ℤ) + 1) / 2 then (k : ℤ) else (k : ℤ) - (nx : ℤ)

/-- The reciprocal-space model potential array `v_G` of `perform_pot_corr`
(corrections.py lines 264-269) as a function of the bin index: bin 0 holds
the `g → 0` limit value, every other bin `k` is filled from the
frequency-squared array `g2[k-1] = (codeFreq nx k · dg)²`, and the Nyquist
bin is overwritten with 0 when `nx` is even.  (For odd `nx ≥ 3` the last
bin has `codeFreq = 0`, so the source divides by zero there — numpy emits
`inf`/`nan`; exact arithmetic gives the junk value 0.  Either way that bin
differs from any finite nonzero model value.) -/
noncomputable def vG (nx : ℕ) (dg q dielectric : ℝ) (q_model : QModel)
    (k : ℕ) : ℝ :=
  if nx % 2 = 0 ∧ k = nx / 2 then 0
  else if k = 0 then 4 * Real.pi * (-q) / dielectric * q_model.rho_rec_limit0
  else
    4 * Real.pi / (dielectric * (((codeFreq nx k : ℝ) * dg) ^ 2)) * (-q)
      * q_model.rho_rec (((codeFreq nx k : ℝ) * dg) ^ 2)

/-- Bin `k` of `np.fft.fft v` (corrections.py line 272): the forward DFT
`Σ_j v[j]·exp(-2πi·j·k/nx)`. -/
noncomputable def dftBin (nx : ℕ) (v : ℕ → ℝ) (k : ℕ) : ℂ :=
  ∑ j in Finset.range nx,
    (v j : ℂ) * Complex.exp (-(2 * (Real.pi : ℂ) * Complex.I * j * k) / nx)

/-- numpy `.max()` over the first `nx` entries of `f` (0 for `nx = 0`, a
case numpy rejects and no claim exercises). -/
noncomputable def npMax (nx : ℕ) (f : ℕ → ℝ) : ℝ :=
  if h : 0 < nx then
    (Finset.range nx).sup' (Finset.nonempty_range_iff.mpr h.ne') f
  else 0

/-- Failure modes of `perform_pot_corr`: the explicit `raise` on a large
imaginary residual (corrections.py lines 274-275), and numpy index failures
— window indices outside `[-nx, nx)` at line 284, or a grid with fewer than
two points at line 281.  (A negative `checkdis`, possible only for a
decreasing grid or a negative sampling width and exercised by no claim,
would make numpy average an empty slice and poison the result with `nan`;
the embedding folds that degenerate case into `indexError` too.) -/
inductive PotCorrError where
  | numericalInstability
  | indexError
deriving DecidableEq

/-- The wrapped defect position used by `perform_pot_corr`
(corrections.py lines 242-247). -/
noncomputable def potAxbulkval (lattice : Lattice) (defect_frac_coords : Fin 3 → ℝ)
    (axis : Fin 3) : ℝ :=
  wrapPos (defect_frac_coords axis) (lattice.abc axis)

/-- The `v_G` array of `perform_pot_corr` with its grid spacing
`dg = reciprocal_lattice.abc[axis] / ang_to_bohr` filled in
(corrections.py lines 259-269). -/
noncomputable def potVG (axis_grid : List ℝ) (lattice : Lattice) (q : ℝ)
    (axis : Fin 3) (dielectric : ℝ) (q_model : QModel) : ℕ → ℝ :=
  vG axis_grid.length (lattice.reciprocalAbc axis / ang_to_bohr) q dielectric
    q_model

/-- The complex array `v_R = np.fft.fft(v_G)` of `perform_pot_corr`
(corrections.py line 272). -/
noncomputable def potVR (axis_grid : List ℝ) (lattice : Lattice) (q : ℝ)
    (axis : Fin 3) (dielectric : ℝ) (q_model : QModel) : ℕ → ℂ :=
  dftBin axis_grid.length (potVG axis_grid lattice q axis dielectric q_model)

/-- The short-range residual `short = defavg - pureavg - v_R` of
`perform_pot_corr` (corrections.py lines 276-280), evaluated with numpy
integer indexing (negative in-range indices wrap); `vRraw` is the real part
of the transformed array, which is scaled by `volume·ang_to_bohr³` and
`hart_to_ev` here (lines 276-277). -/
noncomputable def shortResidual (nx : ℕ) (pureSh defSh vRraw : ℕ → ℝ)
    (lattice : Lattice) : ℤ → ℝ :=
  fun j =>
    let k := (j % (nx : ℤ)).toNat
    defSh k - pureSh k
      - vRraw k / (lattice.volume * ang_to_bohr ^ 3) * hart_to_ev

/-- The window half-width `checkdis = int((widthsample/2)/(grid[1]-grid[0]))`
of `perform_pot_corr` (corrections.py line 281). -/
noncomputable def potCheckdis (axis_grid : List ℝ) (widthsample : ℝ) : ℤ :=
  pyInt ((widthsample / 2) / (axis_grid.getD 1 0 - axis_grid.getD 0 0))

/-- The guard under which the sampling-window accesses of
`perform_pot_corr` (corrections.py lines 281-284) succeed: at least two grid
points, a nonnegative half-width, and every window index inside numpy's
accepted range `[-nx, nx)` for the midpoint `mid = nx / 2`. -/
def windowOK (axis_grid : List ℝ) (widthsample : ℝ) : Prop :=
  2 ≤ axis_grid.length ∧ 0 ≤ potCheckdis axis_grid widthsample ∧
    ((axis_grid.length / 2 : ℕ) : ℤ) + potCheckdis axis_grid widthsample
      < (axis_grid.length : ℤ) ∧
    -(axis_grid.length : ℤ) ≤
      ((axis_grid.length / 2 : ℕ) : ℤ) - potCheckdis axis_grid widthsample

open Classical in
/-- The tail of `perform_pot_corr` after the imaginary-residual check
(corrections.py lines 276-301): form the short-range residual from the real
part of the transformed model potential, average it over the sampling window
`[mid - checkdis, mid + checkdis]` around the grid midpoint, negate the mean
to get the alignment constant `C`, and return `-q·C`.  numpy's `IndexError`
cases are the `.error .indexError` branch. -/
noncomputable def potCorrTail (axis_grid : List ℝ) (pureSh defSh vRraw : ℕ → ℝ)
    (lattice : Lattice) (q widthsample : ℝ) : Except PotCorrError ℝ :=
  let nx := axis_grid.length
  let short := shortResidual nx pureSh defSh vRraw lattice
  let checkdis := potCheckdis axis_grid widthsample
  let mid : ℤ := ((nx / 2 : ℕ) : ℤ)
  if windowOK axis_grid widthsample then
    let len : ℕ := (2 * checkdis + 1).toNat
    let C := -((∑ t in Finset.range len, short (mid - checkdis + t)) / len)
    .ok (-q * C)
  else .error .indexError

open Classical in
/-- Embedding of `perform_pot_corr` (corrections.py lines 199-319),
returning the potential-alignment correction `-q·C` (the diagnostic metadata
of the second return value is referenced by no claim and is omitted).  The
explicit `raise` on the imaginary residual of the transformed model
potential is the `.error .numericalInstability` branch; note that the
source tests `abs(np.imag(v_R).max())`, the absolute value of the maximum
imaginary component. -/
noncomputable def perform_pot_corr (axis_grid pureavg defavg : List ℝ)
    (lattice : Lattice) (q : ℝ) (defect_frac_coords : Fin 3 → ℝ)
    (axis : Fin 3) (dielectric : ℝ) (q_model : QModel)
    (mad_tol widthsample : ℝ) : Except PotCorrError ℝ :=
  let nx := axis_grid.length
  let axbulkval := potAxbulkval lattice defect_frac_coords axis
  let rollind := potRollind axbulkval axis_grid
  let v_R := potVR axis_grid lattice q axis dielectric q_model
  if |npMax nx fun k => (v_R k).im| > mad_tol then
    .error .numericalInstability
  else
    potCorrTail axis_grid (shiftedProfile pureavg axbulkval rollind)
      (shiftedProfile defavg axbulkval rollind) (fun k => (v_R k).re) lattice
      q widthsample

/-- The `dielectric` argument of `get_freysoldt_correction`, which the
source accepts either as a plain number or as a full 3×3 tensor
(corrections.py lines 83-87). -/
inductive DielectricInput where
  | scalar (x : ℝ)
  | tensor (m : Matrix (Fin 3) (Fin 3) ℝ)

/-- The scalar dielectric constant actually used by
`get_freysoldt_correction` (corrections.py lines 83-87): a number is used
unchanged, a tensor is replaced by `np.mean(np.diag(m))`, the arithmetic
mean of its diagonal. -/
noncomputable def effectiveDielectric : DielectricInput → ℝ
  | .scalar x => x
  | .tensor m => (m 0 0 + m 1 1 + m 2 2) / 3

/-- Modelled from the spec: §6 external interface of a 3D potential grid
(the pymatgen `Locpot`, an external collaborator) — consumed only through
its structure's lattice, its per-axis coordinate grids
(`get_axis_grid`), and its per-axis planar averages
(`get_average_along_axis`). -/
structure Locpot where
  lattice : Lattice
  axisGrid : Fin 3 → List ℝ
  planarAvg : Fin 3 → List ℝ

/-- The dictionary returned by `get_freysoldt_correction`
(corrections.py lines 133-136). -/
structure FreysoldtResult where
  freysoldt_electrostatic : ℝ
  freysoldt_potential_alignment : ℝ

/-- Embedding of `get_freysoldt_correction` (corrections.py lines 38-137):
normalise the dielectric input to a scalar, run `perform_es_corr` once on
the defect cell's lattice, run `perform_pot_corr` once per Cartesian axis
(axis grid and planar average of the defect Locpot, planar average of the
bulk Locpot, `widthsample = 1.0`), and return the electrostatic term
together with the mean of the three per-axis alignment corrections.  A
`perform_pot_corr` exception propagates (`Except` bind); the per-axis plot
metadata is referenced by no claim and is omitted.  The source's defensive
`lattice.copy()` is the identity under value semantics. -/
noncomputable def get_freysoldt_correction (q : ℝ)
    (dielectric : DielectricInput) (defect_locpot bulk_locpot : Locpot)
    (defect_frac_coords : Fin 3 → ℝ) (energy_cutoff mad_tol : ℝ)
    (q_model : QModel) (step : ℝ) : Except PotCorrError FreysoldtResult := do
  let d := effectiveDielectric dielectric
  let lattice := defect_locpot.lattice
  let es_corr := perform_es_corr lattice q d q_model energy_cutoff mad_tol step
  let p0 ← perform_pot_corr (defect_locpot.axisGrid 0) (bulk_locpot.planarAvg 0)
    (defect_locpot.planarAvg 0) lattice q defect_frac_coords 0 d q_model
    mad_tol 1
  let p1 ← perform_pot_corr (defect_locpot.axisGrid 1) (bulk_locpot.planarAvg 1)
    (defect_locpot.planarAvg 1) lattice q defect_frac_coords 1 d q_model
    mad_tol 1
  let p2 ← perform_pot_corr (defect_locpot.axisGrid 2) (bulk_locpot.planarAvg 2)
    (defect_locpot.planarAvg 2) lattice q defect_frac_coords 2 d q_model
    mad_tol 1
  pure ⟨es_corr, (p0 + p1 + p2) / 3⟩

/-- One external probe of the slab potential profile used by the 2D
`optimize` loop (corrections.py lines 500-510): for a given charge shift,
run `sxdefectalign2d`, load `vline-eV.dat`, and fit straight lines through
the two boundary segments.  The external process and its file output are an
oracle here: `fit shift = (m1, m2, C1, C2)` (the two slopes and the two
intercepts). -/
structure SlabProbe where
  fit : ℝ → ℝ × ℝ × ℝ × ℝ

/-- Result of the slab `optimize` loop: the convergence flag, the shift and
alignment constant of the final `run_sxdefectalign2d` call, the number of
executed loop bodies, and whether the non-convergence warning
(corrections.py line 548) was emitted. -/
structure OptimizeResult where
  converged : Bool
  shift : ℝ
  C_ave : ℝ
  iterations : ℕ
  warned : Bool

/-- The `while` loop of `optimize` (corrections.py lines 498-543), one
constructor case per branch of the source.  State: remaining loop budget,
current `shift`, bracket `smin`/`smax` (`none` is `∓np.inf`), the search
direction (`true` = "right"), the most recent fitted intercept pair, and
the running body count.  Returns `(done, shift, (C1, C2), iterations)`.
(If the body never runs the source would hit `C1` unbound — a `NameError`
for `max_iter < 0`, which no claim exercises; the junk intercept pair
`(0, 0)` stands in for that case.) -/
noncomputable def optimizeGo (probe : SlabProbe) (q tslope tC : ℝ) :
    ℕ → ℝ → Option ℝ → Option ℝ → Bool → ℝ × ℝ → ℕ →
    Bool × ℝ × (ℝ × ℝ) × ℕ
  | 0, shift, _, _, _, lastC, iters => (false, shift, lastC, iters)
  | remaining + 1, shift, smin, smax, shiftingRight, _, iters =>
      let f := probe.fit shift
      let m1 := f.1
      let m2 := f.2.1
      let c1 := f.2.2.1
      let c2 := f.2.2.2
      if |m1| < tslope ∧ |m2| < tslope ∧ |c1 - c2| < tC then
        (true, shift, (c1, c2), iters + 1)
      else if m1 * m2 < 0 then
        optimizeGo probe q tslope tC remaining
          (if shiftingRight then shift + 0.01 else shift - 0.01) smin smax
          shiftingRight (c1, c2) (iters + 1)
      else if (m1 + m2) * Real.sign q > 0 then
        optimizeGo probe q tslope tC remaining
          (match smax with
            | none => shift + 1
            | some sx => (shift + sx) / 2)
          (some shift) smax true (c1, c2) (iters + 1)
      else if (m1 + m2) * Real.sign q < 0 then
        optimizeGo probe q tslope tC remaining
          (match smin with
            | none => shift - 1
            | some sn => (sn + shift) / 2)
          smin (some shift) false (c1, c2) (iters + 1)
      else
        optimizeGo probe q tslope tC remaining shift smin smax shiftingRight
          (c1, c2) (iters + 1)

/-- Embedding of the slab `optimize` loop (corrections.py lines 481-549).
The guard `counter < max_iter` with `counter` initialised to `-1` and
incremented at the top of the body admits `(max_iter + 1).toNat` body
executions.  On convergence the final external call uses the found shift
and `C_ave = (C1 + C2)/2`; on exhaustion the loop logs the explicit
"Could not find optimal shift" warning and falls back to the best-effort
call with `shift = 0`, `C = 0` (line 549).  Logging is represented by the
`warned` flag.  (The literal source would in fact raise `NameError` on its
undefined `logger` name inside the body, and the enclosing
`get_freysoldt2d_correction` has a duplicated `dielectric` parameter that
prevents the module from even importing; spec §9 declares only the
algorithmic content of this loop normative, which is what is embedded.) -/
noncomputable def optimize (probe : SlabProbe) (q : ℝ) (max_iter : ℤ)
    (threshold_slope threshold_C : ℝ) : OptimizeResult :=
  let r := optimizeGo probe q threshold_slope threshold_C
    (max_iter + 1).toNat 0 none none true (0, 0) 0
  if r.1 then
    ⟨true, r.2.1, (r.2.2.1.1 + r.2.2.1.2) / 2, r.2.2.2, false⟩
  else
    ⟨false, 0, 0, r.2.2.2, true⟩

/-- Python `range(a, b)` as a list of integers `a, a+1, …, b-1`. -/
def intRange (a b : ℤ) : List ℤ :=
  (List.range (b - a).toNat).map (fun (t : ℕ) => a + (t : ℤ))

/-- Embedding of `Defect.get_charge_states` (core.py lines 94-110).  The
`oxi_state` attribute is a Python float, modelled as a rational:
`float.is_integer()` is `den = 1`, `int(oxi_state)` is then the numerator,
and the two `range` calls produce the lists of consecutive integers
`-1 … oxi_state+1` and `oxi_state-1 … 1`.  The `ValueError` is the
`.error` branch. -/
def get_charge_states (oxi_state : ℚ) : Except String (List ℤ) :=
  if oxi_state.den = 1 then
    if 0 ≤ oxi_state.num then .ok (intRange (-1) (oxi_state.num + 2))
    else .ok (intRange (oxi_state.num - 1) 2)
  else .error "Oxidation state must be an integer"

lemma convergeGo_const_zero (f : ℝ → ℝ) (hf : ∀ x, f x = 0)
    (step tol max_h : ℝ) :
    ∀ (fuel : ℕ) (h : ℝ), convergeGo f step tol max_h fuel h 0 = 0 := by
  intro fuel
  induction fuel with
  | zero => intro h; rfl
  | succ n ih =>
      intro h
      rw [convergeGo]
      split
      · rfl
      · simp only [hf]
        split
        · rfl
        · exact ih (h + step)

lemma converge_const_zero (f : ℝ → ℝ) (hf : ∀ x, f x = 0)
    (step tol max_h : ℝ) : converge f step tol max_h = 0 := by
  rw [converge, hf step]
  exact convergeGo_const_zero f hf step tol max_h _ _

lemma perform_es_corr_zero_charge (lattice : Lattice) (dielectric : ℝ)
    (q_model : QModel) (energy_cutoff mad_tol step : ℝ) :
    perform_es_corr lattice 0 dielectric q_model energy_cutoff mad_tol step
      = 0 := by
  simp only [perform_es_corr]
  rw [converge_const_zero _ (fun x => by simp [e_iso]),
    converge_const_zero _ (fun x => by simp [e_per])]
  simp [round6]

lemma vG_zero_charge (nx : ℕ) (dg dielectric : ℝ) (q_model : QModel) :
    vG nx dg 0 dielectric q_model = fun _ => 0 := by
  funext k
  unfold vG
  split
  · rfl
  · split <;> simp

lemma dftBin_const_zero (nx : ℕ) : dftBin nx (fun _ => 0) = fun _ => 0 := by
  funext k
  simp [dftBin]

lemma npMax_const_zero (nx : ℕ) : npMax nx (fun _ => (0 : ℝ)) = 0 := by
  unfold npMax
  split
  · exact Finset.sup'_const _ 0
  · rfl

lemma perform_pot_corr_zero_charge (axis_grid pureavg defavg : List ℝ)
    (lattice : Lattice) (defect_frac_coords : Fin 3 → ℝ) (axis : Fin 3)
    (dielectric : ℝ) (q_model : QModel) (mad_tol widthsample : ℝ)
    (hmt : 0 ≤ mad_tol) (hwin : windowOK axis_grid widthsample) :
    perform_pot_corr axis_grid pureavg defavg lattice 0 defect_frac_coords
      axis dielectric q_model mad_tol widthsample = .ok 0 := by
  have hvr : potVR axis_grid lattice 0 axis dielectric q_model
      = fun _ => 0 := by
    unfold potVR potVG
    rw [vG_zero_charge, dftBin_const_zero]
  unfold perform_pot_corr
  rw [hvr]
  simp only [Complex.zero_im, npMax_const_zero, abs_zero]
  rw [if_neg (not_lt.mpr hmt)]
  unfold potCorrTail
  rw [if_pos hwin]
  simp

/-- Claim C1: for every lattice, dielectric constant, charge model, and pair
of potential profiles, at defect charge `q = 0` the electrostatic correction
returned by `perform_es_corr` and the potential-alignment correction
returned by `perform_pot_corr` are both exactly 0 (under a nonnegative
tolerance and a grid on which the sampling-window accesses succeed, so that
`perform_pot_corr` returns at all). -/
theorem claim_C1 (lattice : Lattice) (dielectric : ℝ) (q_model : QModel)
    (energy_cutoff mad_tol step : ℝ) (axis_grid pureavg defavg : List ℝ)
    (defect_frac_coords : Fin 3 → ℝ) (axis : Fin 3) (widthsample : ℝ)
    (hmt : 0 ≤ mad_tol) (hwin : windowOK axis_grid widthsample) :
    perform_es_corr lattice 0 dielectric q_model energy_cutoff mad_tol step
        = 0 ∧
      perform_pot_corr axis_grid pureavg defavg lattice 0 defect_frac_coords
        axis dielectric q_model mad_tol widthsample = .ok 0 :=
  ⟨perform_es_corr_zero_charge lattice dielectric q_model energy_cutoff
      mad_tol step,
    perform_pot_corr_zero_charge axis_grid pureavg defavg lattice
      defect_frac_coords axis dielectric q_model mad_tol widthsample hmt hwin⟩

lemma windowOK_two_point : windowOK [(0 : ℝ), 5] 1 := by
  have hc : potCheckdis [(0 : ℝ), 5] 1 = 0 := by
    have h5 : ([(0 : ℝ), 5].getD 1 0 - [(0 : ℝ), 5].getD 0 0) = 5 := by
      norm_num [List.getD]
    unfold potCheckdis pyInt
    rw [h5, if_pos (by norm_num)]
    rw [Int.floor_eq_zero_iff]
    norm_num [Set.mem_Ico]
  refine ⟨by norm_num, ?_, ?_, ?_⟩ <;> rw [hc] <;> norm_num

/-- Concrete instantiation of claim C1 (identity lattice, a two-point grid,
flat profiles, tolerance 1). -/
theorem claim_C1_witness :
    (0 : ℝ) ≤ 1 ∧ windowOK [(0 : ℝ), 5] 1 ∧
      (perform_es_corr ⟨1⟩ 0 1 ⟨fun _ => 1, 1⟩ 520 1 1 = 0 ∧
        perform_pot_corr [(0 : ℝ), 5] [0, 0] [0, 0] ⟨1⟩ 0 (fun _ => 0) 0 1
          ⟨fun _ => 1, 1⟩ 1 1 = .ok 0) :=
  ⟨by norm_num, windowOK_two_point,
    claim_C1 ⟨1⟩ 1 ⟨fun _ => 1, 1⟩ 520 1 1 [(0 : ℝ), 5] [0, 0] [0, 0]
      (fun _ => 0) 0 1 (by norm_num) windowOK_two_point⟩

lemma dftBin_zero_im (nx : ℕ) (v : ℕ → ℝ) : (dftBin nx v 0).im = 0 := by
  simp [dftBin, Complex.im_sum]

lemma dftBin_reflect (nx : ℕ) (v : ℕ → ℝ) (k : ℕ) (hk1 : 1 ≤ k)
    (hk2 : k < nx) :
    dftBin nx v (nx - k) = (starRingEnd ℂ) (dftBin nx v k) := by
  unfold dftBin
  rw [map_sum]
  refine Finset.sum_congr rfl fun j hj => ?_
  rw [map_mul, Complex.conj_ofReal]
  congr 1
  have hn : ((nx : ℕ) : ℂ) ≠ 0 := Nat.cast_ne_zero.mpr (by omega)
  have hsub : (((nx : ℕ) - k : ℕ) : ℂ) = (nx : ℂ) - (k : ℂ) := by
    push_cast [hk2.le]
    ring
  have key : -(2 * (Real.pi : ℂ) * Complex.I * j * ((nx - k : ℕ) : ℂ)) / nx
      = ((-(j : ℤ) : ℤ) : ℂ) * (2 * (Real.pi : ℂ) * Complex.I)
        + 2 * (Real.pi : ℂ) * Complex.I * j * k / nx := by
    rw [hsub]
    field_simp
    ring
  rw [key, Complex.exp_add, Complex.exp_int_mul_two_pi_mul_I, one_mul,
    ← Complex.exp_conj]
  congr 1
  rw [map_div₀]
  simp [map_mul, map_neg, Complex.conj_I, Complex.conj_ofReal, map_ofNat]

lemma dftBin_im_reflect (nx : ℕ) (v : ℕ → ℝ) (k : ℕ) (hk1 : 1 ≤ k)
    (hk2 : k < nx) :
    (dftBin nx v (nx - k)).im = -(dftBin nx v k).im := by
  rw [dftBin_reflect nx v k hk1 hk2]
  exact Complex.conj_im _

lemma npMax_im_abs (nx : ℕ) (v : ℕ → ℝ) (hnx : 0 < nx) :
    npMax nx (fun k => (dftBin nx v k).im)
      = npMax nx (fun k => |(dftBin nx v k).im|) := by
  unfold npMax
  rw [dif_pos hnx, dif_pos hnx]
  apply le_antisymm
  · apply Finset.sup'_le
    intro k hk
    exact le_trans (le_abs_self _)
      (Finset.le_sup' (fun k => |(dftBin nx v k).im|) hk)
  · apply Finset.sup'_le
    intro k hk
    rcases Nat.eq_zero_or_pos k with hk0 | hk0
    · subst hk0
      have h0 : |(dftBin nx v 0).im| = (dftBin nx v 0).im := by
        rw [dftBin_zero_im, abs_zero]
      rw [h0]
      exact Finset.le_sup' (fun k => (dftBin nx v k).im) hk
    · rcases abs_cases ((dftBin nx v k).im) with ⟨he, _⟩ | ⟨he, _⟩
      · rw [he]
        exact Finset.le_sup' (fun k => (dftBin nx v k).im) hk
      · have hrefl := dftBin_im_reflect nx v k hk0 (Finset.mem_range.mp hk)
        rw [he, ← hrefl]
        exact Finset.le_sup' (fun k => (dftBin nx v k).im)
          (Finset.mem_range.mpr (by omega))

lemma npMax_abs_nonneg (nx : ℕ) (f : ℕ → ℝ) (hnx : 0 < nx) :
    0 ≤ npMax nx fun k => |f k| := by
  unfold npMax
  rw [dif_pos hnx]
  exact le_trans (abs_nonneg (f 0))
    (Finset.le_sup' (fun k => |f k|) (Finset.mem_range.mpr hnx))

lemma abs_npMax_im (nx : ℕ) (v : ℕ → ℝ) (hnx : 0 < nx) :
    |npMax nx fun k => (dftBin nx v k).im|
      = npMax nx fun k => |(dftBin nx v k).im| := by
  rw [npMax_im_abs nx v hnx]
  exact abs_of_nonneg (npMax_abs_nonneg nx _ hnx)

lemma potCorrTail_ne_instability (axis_grid : List ℝ)
    (pureSh defSh vRraw : ℕ → ℝ) (lattice : Lattice) (q widthsample : ℝ) :
    potCorrTail axis_grid pureSh defSh vRraw lattice q widthsample
      ≠ .error .numericalInstability := by
  unfold potCorrTail
  split
  · simp
  · simp

/-- Claim C2: in `perform_pot_corr`, after transforming the
reciprocal-space model potential to real space, the computation fails with
the `NumericalInstability` error exactly when the imaginary residual of the
transformed array — the maximum absolute value of its imaginary components —
exceeds `mad_tol`; and when every imaginary component is below `mad_tol` in
magnitude, no such error is raised and the computation proceeds on the real
part of the transformed array.  (The source tests `abs(imag(v_R).max())`,
the absolute value of the maximum; because `v_G` is real-valued its DFT is
conjugate-symmetric, the imaginary parts come in opposite pairs, and that
quantity coincides with the claimed maximum absolute value.) -/
theorem claim_C2 (axis_grid pureavg defavg : List ℝ) (lattice : Lattice)
    (q : ℝ) (defect_frac_coords : Fin 3 → ℝ) (axis : Fin 3) (dielectric : ℝ)
    (q_model : QModel) (mad_tol widthsample : ℝ)
    (hnx : 0 < axis_grid.length) :
    (perform_pot_corr axis_grid pureavg defavg lattice q defect_frac_coords
        axis dielectric q_model mad_tol widthsample
        = .error .numericalInstability ↔
      mad_tol < npMax axis_grid.length
        fun k => |(potVR axis_grid lattice q axis dielectric q_model k).im|) ∧
    ((∀ k < axis_grid.length,
        |(potVR axis_grid lattice q axis dielectric q_model k).im| < mad_tol) →
      perform_pot_corr axis_grid pureavg defavg lattice q defect_frac_coords
          axis dielectric q_model mad_tol widthsample
        = potCorrTail axis_grid
            (shiftedProfile pureavg
              (potAxbulkval lattice defect_frac_coords axis)
              (potRollind (potAxbulkval lattice defect_frac_coords axis)
                axis_grid))
            (shiftedProfile defavg
              (potAxbulkval lattice defect_frac_coords axis)
              (potRollind (potAxbulkval lattice defect_frac_coords axis)
                axis_grid))
            (fun k => (potVR axis_grid lattice q axis dielectric q_model k).re)
            lattice q widthsample) := by
  have habs : |npMax axis_grid.length
      fun k => (potVR axis_grid lattice q axis dielectric q_model k).im|
      = npMax axis_grid.length
        fun k => |(potVR axis_grid lattice q axis dielectric q_model k).im| := by
    unfold potVR
    exact abs_npMax_im axis_grid.length _ hnx
  constructor
  · simp only [perform_pot_corr]
    split
    · rename_i hcond
      rw [habs] at hcond
      simpa using hcond
    · rename_i hcond
      rw [habs] at hcond
      simp only [not_lt] at hcond
      constructor
      · intro habsurd
        exact absurd habsurd (potCorrTail_ne_instability _ _ _ _ _ _ _)
      · intro hlt
        exact absurd hlt (not_lt.mpr hcond)
  · intro hall
    have hsmall : ¬ (|npMax axis_grid.length
        fun k => (potVR axis_grid lattice q axis dielectric q_model k).im|
        > mad_tol) := by
      rw [habs]
      rw [not_lt]
      unfold npMax
      rw [dif_pos hnx]
      apply le_of_lt
      rw [Finset.sup'_lt_iff]
      intro k hk
      exact hall k (Finset.mem_range.mp hk)
    simp only [perform_pot_corr]
    rw [if_neg hsmall]

/-- Concrete instantiation of claim C2 (one-point grid, identity lattice):
the instability error occurs exactly when the imaginary residual exceeds the
tolerance. -/
theorem claim_C2_witness :
    0 < [(0 : ℝ)].length ∧
      (perform_pot_corr [(0 : ℝ)] [0] [0] ⟨1⟩ 1 (fun _ => 0) 0 1
          ⟨fun _ => 1, 1⟩ 1 1 = .error .numericalInstability ↔
        1 < npMax [(0 : ℝ)].length
          fun k => |(potVR [(0 : ℝ)] ⟨1⟩ 1 0 1 ⟨fun _ => 1, 1⟩ k).im|) :=
  ⟨by simp,
    (claim_C2 [(0 : ℝ)] [0] [0] ⟨1⟩ 1 (fun _ => 0) 0 1 ⟨fun _ => 1, 1⟩ 1 1
      (by simp)).1⟩

lemma codeFreq_eq_fftFreq_of_even (nx k : ℕ) (heven : nx % 2 = 0)
    (hk : k < nx) : codeFreq nx k = fftFreq nx k := by
  unfold codeFreq fftFreq
  rcases lt_or_le (k : ℤ) ((nx : ℤ) / 2) with h | h
  · have hmod : ((k : ℤ) - (nx : ℤ) / 2) % (nx : ℤ)
        = (k : ℤ) - (nx : ℤ) / 2 + (nx : ℤ) := by
      have h1 : ((k : ℤ) - (nx : ℤ) / 2) % (nx : ℤ)
          = ((k : ℤ) - (nx : ℤ) / 2 + (nx : ℤ) * 1) % (nx : ℤ) := by
        rw [Int.add_mul_emod_self_left]
      rw [h1, mul_one]
      exact Int.emod_eq_of_lt (by omega) (by omega)
    rw [hmod]
    split <;> omega
  · have hmod : ((k : ℤ) - (nx : ℤ) / 2) % (nx : ℤ)
        = (k : ℤ) - (nx : ℤ) / 2 :=
      Int.emod_eq_of_lt (by omega) (by omega)
    rw [hmod]
    split <;> omega

/-- Claim C3, amended: the per-bin description of `v_G` holds for every even
grid length: `v_G[0]` carries the `g → 0` limit value
`4π·(-q)/dielectric·rho_rec_limit0`; every other non-Nyquist bin `k` carries
`4π/(dielectric·g²)·(-q)·rho_rec(g²)` at its (nonzero) grid frequency
`g = fftFreq(nx, k)·dg`; and the Nyquist bin `nx/2` is zeroed.  (For odd
`nx ≥ 3` the source's integer-truncated `arange` shifts the frequency array
by one bin, so the per-bin formula fails there — see the counterexample.) -/
theorem claim_C3 (nx : ℕ) (dg q dielectric : ℝ) (q_model : QModel)
    (hnx : 2 ≤ nx) (heven : nx % 2 = 0) :
    vG nx dg q dielectric q_model 0
        = 4 * Real.pi * (-q) / dielectric * q_model.rho_rec_limit0 ∧
      (∀ k, 0 < k → k < nx → k ≠ nx / 2 →
        fftFreq nx k ≠ 0 ∧
          vG nx dg q dielectric q_model k
            = 4 * Real.pi / (dielectric * (((fftFreq nx k : ℤ) : ℝ) * dg) ^ 2)
              * (-q)
              * q_model.rho_rec ((((fftFreq nx k : ℤ) : ℝ) * dg) ^ 2)) ∧
      vG nx dg q dielectric q_model (nx / 2) = 0 := by
  refine ⟨?_, ?_, ?_⟩
  · unfold vG
    rw [if_neg (by push_neg; intro _; omega), if_pos rfl]
  · intro k hk0 hk1 hk2
    refine ⟨by unfold fftFreq; split <;> omega, ?_⟩
    unfold vG
    rw [if_neg (by push_neg; intro _; exact hk2), if_neg (by omega),
      codeFreq_eq_fftFreq_of_even nx k heven hk1]
  · unfold vG
    rw [if_pos ⟨heven, rfl⟩]

/-- Concrete instantiation of the amended claim C3 at `nx = 4`. -/
theorem claim_C3_witness :
    2 ≤ 4 ∧ 4 % 2 = 0 ∧
      (vG 4 1 1 1 ⟨fun _ => 1, 1⟩ 0
          = 4 * Real.pi * (-1) / 1 * QModel.rho_rec_limit0 ⟨fun _ => 1, 1⟩ ∧
        (∀ k, 0 < k → k < 4 → k ≠ 4 / 2 →
          fftFreq 4 k ≠ 0 ∧
            vG 4 1 1 1 ⟨fun _ => 1, 1⟩ k
              = 4 * Real.pi / (1 * (((fftFreq 4 k : ℤ) : ℝ) * 1) ^ 2) * (-1)
                * QModel.rho_rec ⟨fun _ => 1, 1⟩
                  ((((fftFreq 4 k : ℤ) : ℝ) * 1) ^ 2)) ∧
        vG 4 1 1 1 ⟨fun _ => 1, 1⟩ (4 / 2) = 0) :=
  ⟨by decide, by decide, claim_C3 4 1 1 1 ⟨fun _ => 1, 1⟩ (by decide) (by decide)⟩

/-- Counterexample to claim C3 as frozen: at the odd grid length `nx = 3`
(with `dg = 1`, `q = 1`, `dielectric = 1` and the constant charge model),
bin 2 carries the nonzero grid frequency `-1·dg`, yet its `v_G` entry is not
the claimed `4π/(dielectric·g²)·(-q)·rho_rec(g²)`: the source's
integer-truncated `arange` assigns that bin the squared frequency 0, making
the entry a division by zero (`inf`/`nan` in numpy, the junk value 0 in
exact arithmetic) instead of the claimed `-4π`. -/
theorem claim_C3_counterexample :
    fftFreq 3 2 ≠ 0 ∧
      vG 3 1 1 1 ⟨fun _ => 1, 1⟩ 2
        ≠ 4 * Real.pi / (1 * (((fftFreq 3 2 : ℤ) : ℝ) * 1) ^ 2) * (-1)
          * QModel.rho_rec ⟨fun _ => 1, 1⟩ ((((fftFreq 3 2 : ℤ) : ℝ) * 1) ^ 2) := by
  constructor
  · decide
  · have h1 : vG 3 1 1 1 (⟨fun _ => 1, 1⟩ : QModel) 2 = 0 := by
      unfold vG
      rw [if_neg (by decide), if_neg (by decide)]
      have hcf : codeFreq 3 2 = 0 := by decide
      rw [hcf]
      norm_num
    have h2 : fftFreq 3 2 = -1 := by decide
    rw [h1, h2]
    simp only [QModel.rho_rec]
    norm_num [Real.pi_ne_zero]

lemma sum_range_shift_eq_sum_Icc (a : ℤ) (n : ℕ) (f : ℤ → ℝ) :
    ∑ t in Finset.range n, f (a + t) = ∑ j in Finset.Icc a (a + n - 1), f j := by
  refine Finset.sum_nbij' (fun t => a + (t : ℤ)) (fun j => (j - a).toNat)
    ?_ ?_ ?_ ?_ ?_
  · intro t ht
    rw [Finset.mem_range] at ht
    simp only [Finset.mem_Icc]
    omega
  · intro j hj
    simp only [Finset.mem_Icc] at hj
    simp only [Finset.mem_range]
    omega
  · intro t ht
    simp only
    omega
  · intro j hj
    simp only [Finset.mem_Icc] at hj
    simp only
    omega
  · intro t ht
    rfl

lemma window_mean_eq (m c : ℤ) (hc : 0 ≤ c) (g : ℤ → ℝ) :
    (∑ t in Finset.range (2 * c + 1).toNat, g (m - c + t))
        / (((2 * c + 1).toNat : ℕ) : ℝ)
      = (∑ j in Finset.Icc (m - c) (m + c), g j) / ((2 * c + 1 : ℤ) : ℝ) := by
  rw [sum_range_shift_eq_sum_Icc]
  have h1 : m - c + ((2 * c + 1).toNat : ℤ) - 1 = m + c := by omega
  rw [h1]
  congr 1
  rw [← Int.cast_natCast]
  congr 1
  omega

/-- Claim C4: when `perform_pot_corr` passes its imaginary-residual check
and the sampling-window accesses succeed, the alignment constant `C` is the
negated arithmetic mean of the short-range residual (shifted defect profile
minus shifted bulk profile minus the real-space model potential) over the
symmetric index window `[mid - checkdis, mid + checkdis]` centred on the
grid midpoint `mid = nx/2` (with `checkdis` the half-width derived from
`widthsample` in axis-grid units), and the returned correction is `-q·C`. -/
theorem claim_C4 (axis_grid pureavg defavg : List ℝ) (lattice : Lattice)
    (q : ℝ) (defect_frac_coords : Fin 3 → ℝ) (axis : Fin 3) (dielectric : ℝ)
    (q_model : QModel) (mad_tol widthsample : ℝ)
    (himag : ¬ (|npMax axis_grid.length
        fun k => (potVR axis_grid lattice q axis dielectric q_model k).im|
        > mad_tol))
    (hwin : windowOK axis_grid widthsample) :
    perform_pot_corr axis_grid pureavg defavg lattice q defect_frac_coords
        axis dielectric q_model mad_tol widthsample
      = .ok (-q * (-((∑ j in Finset.Icc
            (((axis_grid.length / 2 : ℕ) : ℤ)
              - potCheckdis axis_grid widthsample)
            (((axis_grid.length / 2 : ℕ) : ℤ)
              + potCheckdis axis_grid widthsample),
            shortResidual axis_grid.length
              (shiftedProfile pureavg
                (potAxbulkval lattice defect_frac_coords axis)
                (potRollind (potAxbulkval lattice defect_frac_coords axis)
                  axis_grid))
              (shiftedProfile defavg
                (potAxbulkval lattice defect_frac_coords axis)
                (potRollind (potAxbulkval lattice defect_frac_coords axis)
                  axis_grid))
              (fun k => (potVR axis_grid lattice q axis dielectric q_model k).re)
              lattice j)
          / ((2 * potCheckdis axis_grid widthsample + 1 : ℤ) : ℝ)))) := by
  simp only [perform_pot_corr]
  rw [if_neg himag]
  simp only [potCorrTail]
  rw [if_pos hwin]
  rw [window_mean_eq (((axis_grid.length / 2 : ℕ) : ℤ))
    (potCheckdis axis_grid widthsample) hwin.2.1]

/-- Concrete instantiation of claim C4 (zero charge, two-point grid,
identity lattice). -/
theorem claim_C4_witness :
    windowOK [(0 : ℝ), 5] 1 ∧
      perform_pot_corr [(0 : ℝ), 5] [0, 0] [0, 0] ⟨1⟩ 0 (fun _ => 0) 0 1
          ⟨fun _ => 1, 1⟩ 1 1
        = .ok (-(0 : ℝ) * (-((∑ j in Finset.Icc
              ((([(0 : ℝ), 5].length / 2 : ℕ) : ℤ) - potCheckdis [(0 : ℝ), 5] 1)
              ((([(0 : ℝ), 5].length / 2 : ℕ) : ℤ) + potCheckdis [(0 : ℝ), 5] 1),
              shortResidual [(0 : ℝ), 5].length
                (shiftedProfile [0, 0] (potAxbulkval ⟨1⟩ (fun _ => 0) 0)
                  (potRollind (potAxbulkval ⟨1⟩ (fun _ => 0) 0) [(0 : ℝ), 5]))
                (shiftedProfile [0, 0] (potAxbulkval ⟨1⟩ (fun _ => 0) 0)
                  (potRollind (potAxbulkval ⟨1⟩ (fun _ => 0) 0) [(0 : ℝ), 5]))
                (fun k => (potVR [(0 : ℝ), 5] ⟨1⟩ 0 0 1 ⟨fun _ => 1, 1⟩ k).re)
                ⟨1⟩ j)
            / ((2 * potCheckdis [(0 : ℝ), 5] 1 + 1 : ℤ) : ℝ)))) := by
  have hvr : potVR [(0 : ℝ), 5] ⟨1⟩ 0 0 1 ⟨fun _ => 1, 1⟩ = fun _ => 0 := by
    unfold potVR potVG
    rw [vG_zero_charge, dftBin_const_zero]
  have himag : ¬ (|npMax [(0 : ℝ), 5].length
      fun k => (potVR [(0 : ℝ), 5] ⟨1⟩ 0 0 1 ⟨fun _ => 1, 1⟩ k).im| > 1) := by
    rw [hvr]
    simp only [Complex.zero_im, npMax_const_zero, abs_zero]
    norm_num
  exact ⟨windowOK_two_point,
    claim_C4 [(0 : ℝ), 5] [0, 0] [0, 0] ⟨1⟩ 0 (fun _ => 0) 0 1 ⟨fun _ => 1, 1⟩
      1 1 himag windowOK_two_point⟩

/-- Claim C5, amended: the projected position `v = frac·L` is adjusted by at
most one period — `L` is added exactly when `v < 0` and subtracted exactly
when `v > L`, which lands in `[0, L)` for fractional coordinates in
`[-1, 1) ∪ (1, 2)` (but not in general: `frac = 1` stays at `L`, and
`|frac| ≥ 2` stays outside); then both profiles are circularly rolled so
that the first grid point strictly above the wrapped position moves to
index 0 (entry `k` of a rolled profile is entry `(k + i) % nx` of the
original, `i` the break index of the source's search loop); and when the
wrapped position is exactly 0 no rollover occurs. -/
theorem claim_C5 (axfracval L : ℝ) (xs grid : List ℝ) (ab : ℝ) (k : ℕ)
    (hL : 0 < L) :
    ((axfracval * L < 0 → wrapPos axfracval L = axfracval * L + L) ∧
      (L < axfracval * L → wrapPos axfracval L = axfracval * L - L) ∧
      (0 ≤ axfracval * L → axfracval * L ≤ L →
        wrapPos axfracval L = axfracval * L)) ∧
    ((-1 ≤ axfracval ∧ axfracval < 1) ∨ (1 < axfracval ∧ axfracval < 2) →
      wrapPos axfracval L ∈ Set.Ico 0 L) ∧
    shiftedProfile xs 0 (potRollind 0 grid) k = xs.getD k 0 ∧
    (ab ≠ 0 → xs.length = grid.length →
      shiftedProfile xs ab (potRollind ab grid) k
        = xs.getD ((k + findBreakIdx ab grid) % xs.length) 0) := by
  refine ⟨⟨?_, ?_, ?_⟩, ?_, ?_, ?_⟩
  · intro h
    simp only [wrapPos]
    rw [if_pos h]
  · intro h
    simp only [wrapPos]
    rw [if_neg (by linarith), if_pos h]
  · intro h1 h2
    simp only [wrapPos]
    rw [if_neg (by linarith), if_neg (by linarith)]
  · intro hf
    simp only [wrapPos, Set.mem_Ico]
    rcases hf with ⟨hf1, hf2⟩ | ⟨hf1, hf2⟩
    · split_ifs with h1 h2
      · constructor
        · nlinarith
        · linarith
      · exfalso
        nlinarith
      · constructor
        · linarith
        · nlinarith
    · split_ifs with h1 h2
      · exfalso
        nlinarith
      · constructor
        · linarith
        · nlinarith
      · exfalso
        push_neg at h2
        nlinarith
  · simp [shiftedProfile]
  · intro h hlen
    simp only [shiftedProfile, rolledGet, if_neg h, potRollind, ← hlen]
    congr 1
    rcases Nat.eq_zero_or_pos xs.length with h0 | h0
    · rw [h0]
      simp only [Nat.cast_zero, Int.emod_zero, zero_sub]
      omega
    · have h3 : (k : ℤ) - ((xs.length : ℤ) - (findBreakIdx ab grid : ℤ))
          = ((k + findBreakIdx ab grid : ℕ) : ℤ) + (xs.length : ℤ) * (-1) := by
        push_cast
        ring
      rw [h3, Int.add_mul_emod_self_left, ← Int.natCast_mod, Int.toNat_natCast]

/-- Concrete instantiation of the amended claim C5
(`frac = 1/2`, `L = 2`, two-point profiles). -/
theorem claim_C5_witness :
    (0 : ℝ) < 2 ∧
      ((((1 : ℝ) / 2) * 2 < 0 → wrapPos (1 / 2) 2 = (1 / 2) * 2 + 2) ∧
        (2 < ((1 : ℝ) / 2) * 2 → wrapPos (1 / 2) 2 = (1 / 2) * 2 - 2) ∧
        (0 ≤ ((1 : ℝ) / 2) * 2 → ((1 : ℝ) / 2) * 2 ≤ 2 →
          wrapPos (1 / 2) 2 = (1 / 2) * 2)) ∧
      ((-1 ≤ (1 : ℝ) / 2 ∧ (1 : ℝ) / 2 < 1) ∨
          (1 < (1 : ℝ) / 2 ∧ (1 : ℝ) / 2 < 2) →
        wrapPos (1 / 2) 2 ∈ Set.Ico 0 2) ∧
      shiftedProfile [(1 : ℝ), 2] 0 (potRollind 0 [(0 : ℝ), 1]) 0
          = [(1 : ℝ), 2].getD 0 0 ∧
      ((1 : ℝ) ≠ 0 → [(1 : ℝ), 2].length = [(0 : ℝ), 1].length →
        shiftedProfile [(1 : ℝ), 2] 1 (potRollind 1 [(0 : ℝ), 1]) 0
          = [(1 : ℝ), 2].getD
            ((0 + findBreakIdx 1 [(0 : ℝ), 1]) % [(1 : ℝ), 2].length) 0) :=
  ⟨by norm_num,
    claim_C5 (1 / 2) 2 [(1 : ℝ), 2] [(0 : ℝ), 1] 1 0 (by norm_num)⟩

/-- Counterexample to claim C5 as frozen: with axis length `L = 1` and
defect fractional coordinate 1, the projected position `1·L = 1` lies
outside `[0, L)`, yet the wrap leaves it at 1, still outside `[0, L)` — the
source adds or subtracts at most one period, and only for strictly negative
or strictly greater-than-`L` positions. -/
theorem claim_C5_counterexample :
    (1 : ℝ) * 1 ∉ Set.Ico (0 : ℝ) 1 ∧ wrapPos 1 1 ∉ Set.Ico (0 : ℝ) 1 := by
  have h1 : wrapPos 1 1 = 1 := by
    simp only [wrapPos]
    norm_num
  constructor
  · norm_num [Set.mem_Ico]
  · rw [h1]
    norm_num [Set.mem_Ico]

/-- Claim C6: `get_freysoldt_correction` computes the electrostatic term by
a single `perform_es_corr` call on the defect cell's lattice, runs
`perform_pot_corr` once per Cartesian axis, and returns as its
potential-alignment term the arithmetic mean of the three per-axis
alignment corrections. -/
theorem claim_C6 (q : ℝ) (dielectric : DielectricInput)
    (defect_locpot bulk_locpot : Locpot) (defect_frac_coords : Fin 3 → ℝ)
    (energy_cutoff mad_tol : ℝ) (q_model : QModel) (step : ℝ) (p0 p1 p2 : ℝ)
    (h0 : perform_pot_corr (defect_locpot.axisGrid 0) (bulk_locpot.planarAvg 0)
      (defect_locpot.planarAvg 0) defect_locpot.lattice q defect_frac_coords 0
      (effectiveDielectric dielectric) q_model mad_tol 1 = .ok p0)
    (h1 : perform_pot_corr (defect_locpot.axisGrid 1) (bulk_locpot.planarAvg 1)
      (defect_locpot.planarAvg 1) defect_locpot.lattice q defect_frac_coords 1
      (effectiveDielectric dielectric) q_model mad_tol 1 = .ok p1)
    (h2 : perform_pot_corr (defect_locpot.axisGrid 2) (bulk_locpot.planarAvg 2)
      (defect_locpot.planarAvg 2) defect_locpot.lattice q defect_frac_coords 2
      (effectiveDielectric dielectric) q_model mad_tol 1 = .ok p2) :
    get_freysoldt_correction q dielectric defect_locpot bulk_locpot
        defect_frac_coords energy_cutoff mad_tol q_model step
      = .ok ⟨perform_es_corr defect_locpot.lattice q
            (effectiveDielectric dielectric) q_model energy_cutoff mad_tol
            step,
          (p0 + p1 + p2) / 3⟩ := by
  simp only [get_freysoldt_correction]
  rw [h0, h1, h2]
  rfl

/-- Concrete instantiation of claim C6 (zero charge, scalar dielectric,
two-point grids on every axis). -/
theorem claim_C6_witness :
    (perform_pot_corr [(0 : ℝ), 5] [0, 0] [0, 0] ⟨1⟩ 0 (fun _ => 0) 0
        (effectiveDielectric (.scalar 1)) ⟨fun _ => 1, 1⟩ 1 1 = .ok 0) ∧
      get_freysoldt_correction 0 (.scalar 1)
          ⟨⟨1⟩, fun _ => [(0 : ℝ), 5], fun _ => [0, 0]⟩
          ⟨⟨1⟩, fun _ => [(0 : ℝ), 5], fun _ => [0, 0]⟩ (fun _ => 0) 520 1
          ⟨fun _ => 1, 1⟩ 1
        = .ok ⟨perform_es_corr ⟨1⟩ 0 (effectiveDielectric (.scalar 1))
              ⟨fun _ => 1, 1⟩ 520 1 1,
            ((0 : ℝ) + 0 + 0) / 3⟩ := by
  have hp : ∀ axis : Fin 3,
      perform_pot_corr [(0 : ℝ), 5] [0, 0] [0, 0] ⟨1⟩ 0 (fun _ => 0) axis
        (effectiveDielectric (.scalar 1)) ⟨fun _ => 1, 1⟩ 1 1 = .ok 0 :=
    fun axis => perform_pot_corr_zero_charge [(0 : ℝ), 5] [0, 0] [0, 0] ⟨1⟩
      (fun _ => 0) axis (effectiveDielectric (.scalar 1)) ⟨fun _ => 1, 1⟩ 1 1
      (by norm_num) windowOK_two_point
  exact ⟨hp 0,
    claim_C6 0 (.scalar 1) ⟨⟨1⟩, fun _ => [(0 : ℝ), 5], fun _ => [0, 0]⟩
      ⟨⟨1⟩, fun _ => [(0 : ℝ), 5], fun _ => [0, 0]⟩ (fun _ => 0) 520 1
      ⟨fun _ => 1, 1⟩ 1 0 0 0 (hp 0) (hp 1) (hp 2)⟩

/-- Claim C7: a tensor dielectric input enters every subsequent computation
only through its trace-averaged scalar (the arithmetic mean of its diagonal
entries) — the whole of `get_freysoldt_correction` behaves identically to a
call with that scalar — while a scalar input is used unchanged. -/
theorem claim_C7 (q : ℝ) (m : Matrix (Fin 3) (Fin 3) ℝ) (x : ℝ)
    (defect_locpot bulk_locpot : Locpot) (defect_frac_coords : Fin 3 → ℝ)
    (energy_cutoff mad_tol : ℝ) (q_model : QModel) (step : ℝ) :
    effectiveDielectric (.tensor m) = (m 0 0 + m 1 1 + m 2 2) / 3 ∧
      effectiveDielectric (.scalar x) = x ∧
      get_freysoldt_correction q (.tensor m) defect_locpot bulk_locpot
          defect_frac_coords energy_cutoff mad_tol q_model step
        = get_freysoldt_correction q (.scalar ((m 0 0 + m 1 1 + m 2 2) / 3))
            defect_locpot bulk_locpot defect_frac_coords energy_cutoff
            mad_tol q_model step :=
  ⟨rfl, rfl, rfl⟩

lemma optimizeGo_iterations_le (probe : SlabProbe) (q tslope tC : ℝ) :
    ∀ (fuel : ℕ) (shift : ℝ) (smin smax : Option ℝ) (dir : Bool)
      (lastC : ℝ × ℝ) (iters : ℕ),
      (optimizeGo probe q tslope tC fuel shift smin smax dir lastC
        iters).2.2.2 ≤ iters + fuel := by
  intro fuel
  induction fuel with
  | zero =>
      intro shift smin smax dir lastC iters
      simp [optimizeGo]
  | succ n ih =>
      intro shift smin smax dir lastC iters
      simp only [optimizeGo]
      split
      · simp
      · split
        · exact le_trans (ih _ _ _ _ _ _) (by omega)
        · split
          · exact le_trans (ih _ _ _ _ _ _) (by omega)
          · split
            · exact le_trans (ih _ _ _ _ _ _) (by omega)
            · exact le_trans (ih _ _ _ _ _ _) (by omega)

/-- Claim C9, amended: the slab-alignment `optimize` loop executes at most
`max_iter + 1` loop bodies (the source initialises `counter = -1` and tests
`counter < max_iter` before incrementing at the top of the body, so the
budget is one larger than `max_iter`), and when the convergence condition
is never met within that budget it still returns a best-effort result — the
fallback external call with `shift = 0` and alignment constant `0` — with
the non-convergence warning surfaced rather than failing. -/
theorem claim_C9 (probe : SlabProbe) (q : ℝ) (max_iter : ℤ)
    (threshold_slope threshold_C : ℝ) :
    (optimize probe q max_iter threshold_slope threshold_C).iterations
        ≤ (max_iter + 1).toNat ∧
      ((optimize probe q max_iter threshold_slope threshold_C).converged
          = false →
        (optimize probe q max_iter threshold_slope threshold_C).warned
            = true ∧
          (optimize probe q max_iter threshold_slope threshold_C).shift = 0 ∧
          (optimize probe q max_iter threshold_slope threshold_C).C_ave
            = 0) := by
  have hbound := optimizeGo_iterations_le probe q threshold_slope threshold_C
    (max_iter + 1).toNat 0 none none true (0, 0) 0
  constructor
  · simp only [optimize]
    split
    · simpa using hbound
    · simpa using hbound
  · simp only [optimize]
    split
    · intro habs
      simp at habs
    · intro _
      exact ⟨rfl, rfl, rfl⟩

/-- Concrete instantiation of the amended claim C9 (a probe whose fitted
slopes never flatten, budget 5). -/
theorem claim_C9_witness :
    (optimize ⟨fun _ => (1, 1, 0, 0)⟩ 1 5 (1 / 1000) (1 / 1000)).iterations
        ≤ ((5 : ℤ) + 1).toNat ∧
      ((optimize ⟨fun _ => (1, 1, 0, 0)⟩ 1 5 (1 / 1000) (1 / 1000)).converged
          = false →
        (optimize ⟨fun _ => (1, 1, 0, 0)⟩ 1 5 (1 / 1000) (1 / 1000)).warned
            = true ∧
          (optimize ⟨fun _ => (1, 1, 0, 0)⟩ 1 5 (1 / 1000) (1 / 1000)).shift
              = 0 ∧
          (optimize ⟨fun _ => (1, 1, 0, 0)⟩ 1 5 (1 / 1000) (1 / 1000)).C_ave
            = 0) :=
  claim_C9 ⟨fun _ => (1, 1, 0, 0)⟩ 1 5 (1 / 1000) (1 / 1000)

/-- Counterexample to claim C9's iteration budget as frozen: with
`max_iter = 0` the loop still executes one body (one bracket update) — the
counter starts at `-1` — exceeding the stated budget of `max_iter`
updates. -/
theorem claim_C9_counterexample :
    (optimize ⟨fun _ => (1, 1, 0, 0)⟩ 1 0 (1 / 1000) (1 / 1000)).iterations
        = 1 ∧
      ¬ ((optimize ⟨fun _ => (1, 1, 0, 0)⟩ 1 0 (1 / 1000)
          (1 / 1000)).iterations ≤ (0 : ℤ).toNat) := by
  have hgo : optimizeGo ⟨fun _ => (1, 1, 0, 0)⟩ 1 (1 / 1000) (1 / 1000)
      ((0 : ℤ) + 1).toNat 0 none none true (0, 0) 0
      = (false, 0 + 1, (0, 0), 1) := by
    have h1 : ((0 : ℤ) + 1).toNat = 1 := by decide
    rw [h1]
    simp only [optimizeGo]
    rw [if_neg (by norm_num), if_neg (by norm_num),
      if_pos (by norm_num [Real.sign_one])]
  have hopt : optimize ⟨fun _ => (1, 1, 0, 0)⟩ 1 0 (1 / 1000) (1 / 1000)
      = ⟨false, 0, 0, 1, true⟩ := by
    simp only [optimize, hgo]
    rfl
  rw [hopt]
  exact ⟨rfl, by decide⟩

lemma intRange_mem (a b m : ℤ) : m ∈ intRange a b ↔ a ≤ m ∧ m < b := by
  unfold intRange
  rw [List.mem_map]
  constructor
  · rintro ⟨t, ht, heq⟩
    rw [List.mem_range] at ht
    have heq2 : a + (t : ℤ) = m := heq
    omega
  · rintro ⟨h1, h2⟩
    refine ⟨(m - a).toNat, ?_, ?_⟩
    · rw [List.mem_range]
      omega
    · show a + (((m - a).toNat : ℕ) : ℤ) = m
      omega

/-- Claim C10: `get_charge_states` raises `ValueError` exactly when
`oxi_state` is not an integer; at an integer `n ≥ 0` it returns the
consecutive integers `-1 … n+1`, at an integer `n < 0` the consecutive
integers `n-1 … 1`; every returned list is non-empty and contains `0`, `-1`
and `+1`. -/
theorem claim_C10 (oxi_state : ℚ) :
    ((∃ e, get_charge_states oxi_state = .error e) ↔
      ¬ ∃ n : ℤ, oxi_state = (n : ℚ)) ∧
    ∀ n : ℤ, oxi_state = (n : ℚ) →
      (0 ≤ n →
        get_charge_states oxi_state = .ok (intRange (-1) (n + 2)) ∧
          ∀ m : ℤ, m ∈ intRange (-1) (n + 2) ↔ -1 ≤ m ∧ m ≤ n + 1) ∧
      (n < 0 →
        get_charge_states oxi_state = .ok (intRange (n - 1) 2) ∧
          ∀ m : ℤ, m ∈ intRange (n - 1) 2 ↔ n - 1 ≤ m ∧ m ≤ 1) ∧
      ∀ l : List ℤ, get_charge_states oxi_state = .ok l →
        (0 : ℤ) ∈ l ∧ (-1 : ℤ) ∈ l ∧ (1 : ℤ) ∈ l ∧ l ≠ [] := by
  have hiff : oxi_state.den = 1 ↔ ∃ n : ℤ, oxi_state = (n : ℚ) := by
    constructor
    · intro h
      exact ⟨oxi_state.num, ((Rat.den_eq_one_iff oxi_state).mp h).symm⟩
    · rintro ⟨n, rfl⟩
      exact Rat.den_intCast n
  constructor
  · constructor
    · rintro ⟨e, he⟩ hex
      have hden := hiff.mpr hex
      unfold get_charge_states at he
      rw [if_pos hden] at he
      split at he <;> exact Except.noConfusion he
    · intro hnex
      have hden : ¬ oxi_state.den = 1 := fun h => hnex (hiff.mp h)
      refine ⟨"Oxidation state must be an integer", ?_⟩
      unfold get_charge_states
      rw [if_neg hden]
  · intro n hn
    have hden : oxi_state.den = 1 := hiff.mpr ⟨n, hn⟩
    have hnum : oxi_state.num = n := by
      rw [hn]
      exact Rat.num_intCast n
    refine ⟨?_, ?_, ?_⟩
    · intro h0
      refine ⟨?_, ?_⟩
      · unfold get_charge_states
        rw [if_pos hden, if_pos (by omega), hnum]
      · intro m
        rw [intRange_mem]
        omega
    · intro h0
      refine ⟨?_, ?_⟩
      · unfold get_charge_states
        rw [if_pos hden, if_neg (by omega), hnum]
      · intro m
        rw [intRange_mem]
        omega
    · intro l hl
      unfold get_charge_states at hl
      rw [if_pos hden] at hl
      rcases le_or_lt 0 oxi_state.num with h0 | h0
      · rw [if_pos h0] at hl
        have hle : l = intRange (-1) (oxi_state.num + 2) :=
          (Except.ok.inj hl).symm
        subst hle
        refine ⟨?_, ?_, ?_, ?_⟩
        · rw [intRange_mem]
          omega
        · rw [intRange_mem]
          omega
        · rw [intRange_mem]
          omega
        · exact List.ne_nil_of_mem ((intRange_mem _ _ 0).mpr (by omega))
      · rw [if_neg (by omega)] at hl
        have hle : l = intRange (oxi_state.num - 1) 2 :=
          (Except.ok.inj hl).symm
        subst hle
        refine ⟨?_, ?_, ?_, ?_⟩
        · rw [intRange_mem]
          omega
        · rw [intRange_mem]
          omega
        · rw [intRange_mem]
          omega
        · exact List.ne_nil_of_mem ((intRange_mem _ _ 0).mpr (by omega))

/-- Concrete instantiation of claim C10 at the integer oxidation state 3:
the returned charge states are `-1 … 4`. -/
theorem claim_C10_witness :
    (3 : ℚ) = ((3 : ℤ) : ℚ) ∧ (0 : ℤ) ≤ 3 ∧
      get_charge_states 3 = .ok (intRange (-1) (3 + 2)) := by
  refine ⟨by norm_num, by norm_num, ?_⟩
  exact (((claim_C10 3).2 3 (by norm_num)).1 (by norm_num)).1

end Defects
